import Mathlib

/-!
Verification of the parallel DOM traversal engine in
`src/components/style/parallel.rs`.

The dispatcher `traverse_nodes` and the level processor `top_down_dom` are
embedded as pure functions over lists of node identifiers (`Nat`).  The
scheduler query `pool.current_thread_has_pending_tasks()` becomes an explicit
Boolean parameter, a `scope.spawn` is recorded as a `WorkCall` with
`spawned = true`, and the whole execution spawned from the root dispatch is
captured by the reachability relation `ReachesDispatch`.  The statistics
epilogue of `traverse_dom` is embedded over an abstract statistics type.
-/

namespace Servo

/-- Maximum number of child nodes processed as a single unit.
Mirrors `WORK_UNIT_MAX` in `parallel.rs`. -/
def WORK_UNIT_MAX : Nat := 16

/-- Ceiling on consecutive tail dispatches on one call stack.
Mirrors `RECURSION_DEPTH_LIMIT` in `parallel.rs`. -/
def RECURSION_DEPTH_LIMIT : Nat := 150

/-- Mirrors `enum DispatchMode { TailCall, NotTailCall }`. -/
inductive DispatchMode
  | TailCall
  | NotTailCall
deriving DecidableEq, Repr

/-- Mirrors `DispatchMode::is_tail_call`. -/
def DispatchMode.is_tail_call : DispatchMode → Bool
  | .TailCall => true
  | .NotTailCall => false

/-- One invocation of the level processor `top_down_dom`, as issued by the
dispatcher: the work unit, the recursion depth passed, the per-level dom
depth carried in `traversal_data`, and whether the invocation went through
`scope.spawn` (`spawned = true`) or ran directly on the current stack
(`spawned = false`). -/
structure WorkCall where
  nodes : List Nat
  recursion_depth : Nat
  dom_depth : Nat
  spawned : Bool
deriving DecidableEq, Repr

/-- One invocation of the dispatcher `traverse_nodes`. -/
structure DispatchCall where
  nodes : List Nat
  mode : DispatchMode
  recursion_depth : Nat
  dom_depth : Nat
deriving DecidableEq, Repr

/-- Rust's slice `chunks(k)`: consecutive chunks of length `k`, the last one
possibly shorter.  (`chunks 0` is a panic in Rust; here it returns `[]`, and
it is only ever used with `k = WORK_UNIT_MAX`.) -/
def chunks {α : Type} : Nat → List α → List (List α)
  | _, [] => []
  | 0, _ :: _ => []
  | k + 1, x :: xs => (x :: xs).take (k + 1) :: chunks (k + 1) ((x :: xs).drop (k + 1))
termination_by _ l => l.length
decreasing_by
  simp only [List.length_drop, List.length_cons]
  omega

/-- Mirrors the tail-eligibility test of `traverse_nodes` (lines 286-288):
`mode.is_tail_call() && recursion_depth != RECURSION_DEPTH_LIMIT &&
!pool.current_thread_has_pending_tasks().unwrap()`. -/
def may_dispatch_tail (mode : DispatchMode) (recursion_depth : Nat)
    (has_pending : Bool) : Bool :=
  mode.is_tail_call && decide (recursion_depth ≠ RECURSION_DEPTH_LIMIT) && !has_pending

/-- Mirrors the body of `traverse_nodes` (lines 292-313), returning the list
of `top_down_dom` invocations it issues.  A work unit of at most
`WORK_UNIT_MAX` nodes is either run directly with `recursion_depth + 1`
(tail-eligible) or spawned with recursion depth `0`; a longer list is split
with `chunks(WORK_UNIT_MAX)` and every chunk is spawned with recursion
depth `0` and its own copy of the per-level data. -/
def traverse_nodes (nodes : List Nat) (mode : DispatchMode)
    (recursion_depth dom_depth : Nat) (has_pending : Bool) : List WorkCall :=
  if nodes.length ≤ WORK_UNIT_MAX then
    if may_dispatch_tail mode recursion_depth has_pending then
      [⟨nodes, recursion_depth + 1, dom_depth, false⟩]
    else
      [⟨nodes, 0, dom_depth, true⟩]
  else
    (chunks WORK_UNIT_MAX nodes).map (fun c => ⟨c, 0, dom_depth, true⟩)

/-- Callback events observed while the level processor runs one work unit:
`process_preorder` on a node, and `handle_postorder_traversal` on a node
with the `children_to_process` count (an `isize` in the source, hence
`Int`). -/
inductive Event
  | preorder (n : Nat)
  | postorder (n : Nat) (children_to_process : Int)
deriving DecidableEq, Repr

/-- State threaded through the loop of `top_down_dom`: the
`discovered_child_nodes` scratch buffer, the dispatcher calls issued so
far, and the callback events observed so far. -/
structure LoopState where
  buffer : List Nat
  dispatches : List DispatchCall
  events : List Event
deriving DecidableEq, Repr

/-- One iteration of the `for n in nodes` loop of `top_down_dom`
(lines 162-225): if the scratch buffer already holds at least
`WORK_UNIT_MAX` discovered children, dispatch it whole with mode
`NotTailCall` at `dom_depth + 1` and clear it; then run the preorder
callback, which increments `children_to_process` and pushes each discovered
child, and finally the postorder callback with the count. -/
def top_down_step (childrenOf : Nat → List Nat) (recursion_depth dom_depth : Nat)
    (s : LoopState) (n : Nat) : LoopState :=
  let s :=
    if WORK_UNIT_MAX ≤ s.buffer.length then
      { buffer := [],
        dispatches := s.dispatches ++
          [⟨s.buffer, DispatchMode.NotTailCall, recursion_depth, dom_depth + 1⟩],
        events := s.events }
    else s
  let res := (childrenOf n).foldl
    (fun (p : Int × List Nat) c => (p.1 + 1, p.2 ++ [c])) ((0 : Int), s.buffer)
  { buffer := res.2,
    dispatches := s.dispatches,
    events := s.events ++ [Event.preorder n, Event.postorder n res.1] }

/-- The `for n in nodes` loop of `top_down_dom`. -/
def top_down_loop (childrenOf : Nat → List Nat) (recursion_depth dom_depth : Nat)
    (nodes : List Nat) (s : LoopState) : LoopState :=
  nodes.foldl (top_down_step childrenOf recursion_depth dom_depth) s

/-- Mirrors `top_down_dom` (lines 134-243): run the loop from an empty
scratch buffer, then, if children remain queued, dispatch them once with
mode `TailCall` at `dom_depth + 1`. -/
def top_down_dom (childrenOf : Nat → List Nat) (nodes : List Nat)
    (recursion_depth dom_depth : Nat) : LoopState :=
  let s := top_down_loop childrenOf recursion_depth dom_depth nodes ⟨[], [], []⟩
  if s.buffer.isEmpty then s
  else
    { s with dispatches := s.dispatches ++
        [⟨s.buffer, DispatchMode.TailCall, recursion_depth, dom_depth + 1⟩] }

/-- The seed dispatch issued by the driver `traverse_dom` (lines 78-86):
a one-node list holding the root, mode `TailCall`, recursion depth `0`,
dom depth `root.depth()`. -/
def rootDispatch (root : Nat) (root_depth : Nat) : DispatchCall :=
  ⟨[root], DispatchMode.TailCall, 0, root_depth⟩

/-- Reachability between dispatcher calls over a whole traversal: a step
picks any answer `b` of the scheduler's pending-tasks query, follows one
`top_down_dom` invocation `w` issued by `traverse_nodes`, and lands on one
of the dispatcher calls that invocation issues in turn. -/
inductive ReachesDispatch (childrenOf : Nat → List Nat) (c₀ : DispatchCall) :
    DispatchCall → Prop
  | refl : ReachesDispatch childrenOf c₀ c₀
  | step (c : DispatchCall) (b : Bool) (w : WorkCall) (d : DispatchCall) :
      ReachesDispatch childrenOf c₀ c →
      w ∈ traverse_nodes c.nodes c.mode c.recursion_depth c.dom_depth b →
      d ∈ (top_down_dom childrenOf w.nodes w.recursion_depth w.dom_depth).dispatches →
      ReachesDispatch childrenOf c₀ d

/-- Operations of the statistics type used by the driver's epilogue.  The
`TraversalStatistics` type itself lives outside this subsystem
(`context.rs`); the driver uses only its default value, the `+` merge, the
`finish` stamping, and the `is_large_traversal` classification. -/
structure StatsOps (S : Type) where
  default : S
  add : S → S → S
  finish : S → Nat → S
  is_large_traversal : S → Bool

/-- Mirrors the statistics logic of `traverse_dom` (lines 65-66 and
91-103).  Returns `none` when the code would panic on
`start_time.unwrap()`; otherwise `some (start_time, printed)` where
`printed` is the aggregate that gets printed, if any.  The fold over the
per-thread slots mirrors
`slots.iter().fold(TraversalStatistics::default(), ...)` with `None` slots
skipped and `Some` slots merged as `statistics + acc`. -/
def traverse_dom_stats {S : Type} (ops : StatsOps S) (dump_stats : Bool)
    (now : Nat) (slots : List (Option S)) : Option (Option Nat × Option S) :=
  let start_time := if dump_stats then some now else none
  if dump_stats then
    let aggregate := slots.foldl
      (fun acc t =>
        match t with
        | none => acc
        | some st => ops.add st acc) ops.default
    match start_time with
    | none => none
    | some t0 =>
      let aggregate := ops.finish aggregate t0
      some (start_time, if ops.is_large_traversal aggregate then some aggregate else none)
  else
    some (start_time, none)

/-- A leaf-only child map: every node has no children.  Used to instantiate
the traversal model at concrete inputs. -/
def leafOnly : Nat → List Nat := fun _ => []

/-- A unary child map: node `n` has the single child `n + 1`. -/
def oneChild : Nat → List Nat := fun n => [n + 1]


theorem chunks_mem_length_le {α : Type} (k : Nat) (l : List α) (c : List α)
    (hc : c ∈ chunks k l) : c.length ≤ k ∧ c ≠ [] := by
  induction k, l using chunks.induct with
  | case1 k => simp [chunks] at hc
  | case2 x xs => simp [chunks] at hc
  | case3 k x xs ih =>
    rw [chunks] at hc
    rcases List.mem_cons.mp hc with h | h
    · subst h
      constructor
      · exact List.length_take_le _ _
      · simp
    · exact ih h

theorem chunks_flatten {α : Type} (k : Nat) (hk : 0 < k) (l : List α) :
    (chunks k l).flatten = l := by
  induction k, l using chunks.induct with
  | case1 k => simp [chunks]
  | case2 x xs => omega
  | case3 k x xs ih =>
    rw [chunks]
    simp only [List.flatten_cons]
    rw [ih hk]  -- may need arg
    exact List.take_append_drop _ _


theorem chunks_nil {α : Type} (k : Nat) : chunks k ([] : List α) = [] := by
  rw [chunks]

theorem chunks_succ_of_ne_nil {α : Type} (k : Nat) (l : List α) (h : l ≠ []) :
    chunks (k + 1) l = l.take (k + 1) :: chunks (k + 1) (l.drop (k + 1)) := by
  cases l with
  | nil => exact absurd rfl h
  | cons x xs => rw [chunks]

theorem chunks_of_len20 {α : Type} (l : List α) (h : l.length = 20) :
    chunks 16 l = [l.take 16, l.drop 16] := by
  have h1 : l ≠ [] := by
    intro hnil; rw [hnil] at h; simp at h
  have h2 : l.drop 16 ≠ [] := by
    intro hnil
    have := congrArg List.length hnil
    simp [h] at this
  rw [show (16 : Nat) = 15 + 1 from rfl]
  rw [chunks_succ_of_ne_nil _ _ h1, chunks_succ_of_ne_nil _ _ h2]
  have h3 : (l.drop 16).take 16 = l.drop 16 := by
    apply List.take_of_length_le
    simp [h]
  have h4 : (l.drop 16).drop 16 = [] := by
    apply List.drop_eq_nil_of_le
    simp [h]
  rw [h3, h4, chunks_nil]

theorem foldl_count_spec (l : List Nat) (c : Int) (buf : List Nat) :
    l.foldl (fun (p : Int × List Nat) x => (p.1 + 1, p.2 ++ [x])) (c, buf) =
      (c + l.length, buf ++ l) := by
  induction l generalizing c buf with
  | nil => simp
  | cons x xs ih =>
    simp only [List.foldl_cons, ih]
    simp only [List.length_cons, List.append_assoc, List.singleton_append, Prod.mk.injEq]
    constructor
    · push_cast; ring
    · trivial


theorem top_down_step_spec (childrenOf : Nat → List Nat) (rd dd : Nat)
    (s : LoopState) (n : Nat) :
    top_down_step childrenOf rd dd s n =
      if WORK_UNIT_MAX ≤ s.buffer.length then
        { buffer := childrenOf n,
          dispatches := s.dispatches ++
            [⟨s.buffer, DispatchMode.NotTailCall, rd, dd + 1⟩],
          events := s.events ++
            [Event.preorder n, Event.postorder n ((childrenOf n).length : Int)] }
      else
        { buffer := s.buffer ++ childrenOf n,
          dispatches := s.dispatches,
          events := s.events ++
            [Event.preorder n, Event.postorder n ((childrenOf n).length : Int)] } := by
  by_cases h : WORK_UNIT_MAX ≤ s.buffer.length <;>
    simp only [top_down_step, h, if_pos, if_neg, ite_true, ite_false, foldl_count_spec] <;>
    simp [foldl_count_spec]

theorem top_down_step_events (childrenOf : Nat → List Nat) (rd dd : Nat)
    (s : LoopState) (n : Nat) :
    (top_down_step childrenOf rd dd s n).events =
      s.events ++ [Event.preorder n, Event.postorder n ((childrenOf n).length : Int)] := by
  rw [top_down_step_spec]
  by_cases h : WORK_UNIT_MAX ≤ s.buffer.length <;> simp [h]

theorem top_down_loop_events (childrenOf : Nat → List Nat) (rd dd : Nat) :
    ∀ (ns : List Nat) (s : LoopState),
      (top_down_loop childrenOf rd dd ns s).events =
        s.events ++ ns.flatMap
          (fun n => [Event.preorder n, Event.postorder n ((childrenOf n).length : Int)]) := by
  intro ns
  induction ns with
  | nil => intro s; simp [top_down_loop]
  | cons n ns ih =>
    intro s
    show (top_down_loop childrenOf rd dd ns (top_down_step childrenOf rd dd s n)).events = _
    rw [ih, top_down_step_events]
    simp

theorem top_down_loop_dispatch_inv (childrenOf : Nat → List Nat) (rd dd : Nat)
    (P : DispatchCall → Prop)
    (hmid : ∀ buf : List Nat, WORK_UNIT_MAX ≤ buf.length →
      P ⟨buf, DispatchMode.NotTailCall, rd, dd + 1⟩) :
    ∀ (ns : List Nat) (s : LoopState), (∀ d ∈ s.dispatches, P d) →
      ∀ d ∈ (top_down_loop childrenOf rd dd ns s).dispatches, P d := by
  intro ns
  induction ns with
  | nil => intro s hs; exact hs
  | cons n ns ih =>
    intro s hs
    show ∀ d ∈ (top_down_loop childrenOf rd dd ns (top_down_step childrenOf rd dd s n)).dispatches, P d
    apply ih
    rw [top_down_step_spec]
    by_cases h : WORK_UNIT_MAX ≤ s.buffer.length
    · simp only [h, ite_true]
      intro d hd
      rcases List.mem_append.mp hd with h1 | h1
      · exact hs d h1
      · rcases List.mem_singleton.mp h1 with rfl
        exact hmid s.buffer h
    · simp only [h, ite_false]
      exact hs

theorem top_down_dom_dispatch_inv (childrenOf : Nat → List Nat)
    (ns : List Nat) (rd dd : Nat) :
    ∀ d ∈ (top_down_dom childrenOf ns rd dd).dispatches,
      d.recursion_depth = rd ∧ d.dom_depth = dd + 1 ∧ d.nodes ≠ [] := by
  intro d hd
  unfold top_down_dom at hd
  have hloop : ∀ d ∈ (top_down_loop childrenOf rd dd ns ⟨[], [], []⟩).dispatches,
      d.recursion_depth = rd ∧ d.dom_depth = dd + 1 ∧ d.nodes ≠ [] := by
    apply top_down_loop_dispatch_inv
    · intro buf hbuf
      refine ⟨rfl, rfl, ?_⟩
      intro hnil
      have hb : buf = [] := hnil
      rw [hb] at hbuf
      simp [WORK_UNIT_MAX] at hbuf
    · intro d hd'
      simp at hd'
  set s := top_down_loop childrenOf rd dd ns ⟨[], [], []⟩ with hs
  by_cases hempty : s.buffer.isEmpty
  · rw [if_pos hempty] at hd
    exact hloop d hd
  · rw [if_neg hempty] at hd
    simp only [List.mem_append] at hd
    rcases hd with h1 | h1
    · exact hloop d h1
    · rcases List.mem_singleton.mp h1 with rfl
      refine ⟨rfl, rfl, ?_⟩
      intro hnil
      rw [List.isEmpty_iff] at hempty
      exact hempty hnil


theorem may_dispatch_tail_iff (mode : DispatchMode) (rd : Nat) (b : Bool) :
    may_dispatch_tail mode rd b = true ↔
      (mode = DispatchMode.TailCall ∧ rd ≠ RECURSION_DEPTH_LIMIT ∧ b = false) := by
  cases mode <;> cases b <;>
    simp [may_dispatch_tail, DispatchMode.is_tail_call]

theorem traverse_nodes_work_length (nodes : List Nat) (mode : DispatchMode)
    (rd dd : Nat) (b : Bool) :
    ∀ w ∈ traverse_nodes nodes mode rd dd b, w.nodes.length ≤ WORK_UNIT_MAX := by
  intro w hw
  unfold traverse_nodes at hw
  by_cases h : nodes.length ≤ WORK_UNIT_MAX
  · rw [if_pos h] at hw
    by_cases h2 : may_dispatch_tail mode rd b = true
    · rw [if_pos h2] at hw
      rcases List.mem_singleton.mp hw with rfl
      exact h
    · rw [if_neg h2] at hw
      rcases List.mem_singleton.mp hw with rfl
      exact h
  · rw [if_neg h] at hw
    rcases List.mem_map.mp hw with ⟨c, hc, rfl⟩
    exact (chunks_mem_length_le WORK_UNIT_MAX nodes c hc).1

theorem traverse_nodes_work_nonempty (nodes : List Nat) (mode : DispatchMode)
    (rd dd : Nat) (b : Bool) (hne : nodes ≠ []) :
    ∀ w ∈ traverse_nodes nodes mode rd dd b, w.nodes ≠ [] := by
  intro w hw
  unfold traverse_nodes at hw
  by_cases h : nodes.length ≤ WORK_UNIT_MAX
  · rw [if_pos h] at hw
    by_cases h2 : may_dispatch_tail mode rd b = true
    · rw [if_pos h2] at hw
      rcases List.mem_singleton.mp hw with rfl
      exact hne
    · rw [if_neg h2] at hw
      rcases List.mem_singleton.mp hw with rfl
      exact hne
  · rw [if_neg h] at hw
    rcases List.mem_map.mp hw with ⟨c, hc, rfl⟩
    exact (chunks_mem_length_le WORK_UNIT_MAX nodes c hc).2

theorem traverse_nodes_depth_le (nodes : List Nat) (mode : DispatchMode)
    (rd dd : Nat) (b : Bool) (hrd : rd ≤ RECURSION_DEPTH_LIMIT) :
    ∀ w ∈ traverse_nodes nodes mode rd dd b,
      w.recursion_depth ≤ RECURSION_DEPTH_LIMIT := by
  intro w hw
  unfold traverse_nodes at hw
  by_cases h : nodes.length ≤ WORK_UNIT_MAX
  · rw [if_pos h] at hw
    by_cases h2 : may_dispatch_tail mode rd b = true
    · rw [if_pos h2] at hw
      rcases List.mem_singleton.mp hw with rfl
      have := ((may_dispatch_tail_iff mode rd b).mp h2).2.1
      show rd + 1 ≤ RECURSION_DEPTH_LIMIT
      omega
    · rw [if_neg h2] at hw
      rcases List.mem_singleton.mp hw with rfl
      show 0 ≤ RECURSION_DEPTH_LIMIT
      omega
  · rw [if_neg h] at hw
    rcases List.mem_map.mp hw with ⟨c, hc, rfl⟩
    show 0 ≤ RECURSION_DEPTH_LIMIT
    omega

theorem reaches_recursion_depth_le (childrenOf : Nat → List Nat)
    (root root_depth : Nat) (c : DispatchCall)
    (h : ReachesDispatch childrenOf (rootDispatch root root_depth) c) :
    c.recursion_depth ≤ RECURSION_DEPTH_LIMIT := by
  induction h with
  | refl => simp [rootDispatch, RECURSION_DEPTH_LIMIT]
  | step c b w d hreach hw hd ih =>
    have hwd : w.recursion_depth ≤ RECURSION_DEPTH_LIMIT :=
      traverse_nodes_depth_le c.nodes c.mode c.recursion_depth c.dom_depth b ih w hw
    have := (top_down_dom_dispatch_inv childrenOf w.nodes w.recursion_depth w.dom_depth d hd).1
    omega


theorem fold_stats_filterMap {S : Type} (ops : StatsOps S)
    (slots : List (Option S)) (init : S) :
    slots.foldl
      (fun acc t =>
        match t with
        | none => acc
        | some st => ops.add st acc) init =
      (slots.filterMap id).foldl (fun acc st => ops.add st acc) init := by
  induction slots generalizing init with
  | nil => rfl
  | cons t ts ih => cases t <;> simp [List.filterMap_cons, ih]

theorem traverse_dom_stats_true {S : Type} (ops : StatsOps S) (now : Nat)
    (slots : List (Option S)) :
    traverse_dom_stats ops true now slots =
      some (some now,
        if ops.is_large_traversal (ops.finish
            ((slots.filterMap id).foldl (fun acc st => ops.add st acc) ops.default) now)
        then some (ops.finish
            ((slots.filterMap id).foldl (fun acc st => ops.add st acc) ops.default) now)
        else none) := by
  simp only [traverse_dom_stats, if_pos, ite_true, fold_stats_filterMap]

theorem traverse_dom_stats_false {S : Type} (ops : StatsOps S) (now : Nat)
    (slots : List (Option S)) :
    traverse_dom_stats ops false now slots = some (none, none) := by
  simp [traverse_dom_stats]


/-- C1: every work unit the dispatcher `traverse_nodes` hands to the level
processor `top_down_dom` contains at most `WORK_UNIT_MAX = 16` node
handles, whatever node list the dispatcher itself received: a list of at
most 16 nodes becomes one unit, a longer one is chunked, so the length
assertion at the top of `top_down_dom` holds on every call. -/
theorem work_unit_never_exceeds_max (nodes : List Nat) (mode : DispatchMode)
    (rd dd : Nat) (b : Bool) (w : WorkCall)
    (hw : w ∈ traverse_nodes nodes mode rd dd b) :
    w.nodes.length ≤ WORK_UNIT_MAX :=
  traverse_nodes_work_length nodes mode rd dd b w hw

theorem work_unit_never_exceeds_max_witness :
    (⟨[1, 2, 3], 1, 7, false⟩ : WorkCall) ∈
        traverse_nodes [1, 2, 3] DispatchMode.TailCall 0 7 false ∧
    (⟨[1, 2, 3], 1, 7, false⟩ : WorkCall).nodes.length ≤ WORK_UNIT_MAX :=
  ⟨by decide,
   work_unit_never_exceeds_max [1, 2, 3] DispatchMode.TailCall 0 7 false
     ⟨[1, 2, 3], 1, 7, false⟩ (by decide)⟩

/-- C2: when the node count fits in one work unit, the dispatcher runs the
level processor directly on the current stack with `recursion_depth + 1`
exactly when `mode = TailCall`, the recursion depth differs from the
ceiling, and the worker has no pending task; in every other case it spawns
a task running the level processor with recursion depth `0`. -/
theorem single_unit_tail_or_spawn (nodes : List Nat) (mode : DispatchMode)
    (rd dd : Nat) (b : Bool) (h : nodes.length ≤ WORK_UNIT_MAX) :
    (traverse_nodes nodes mode rd dd b = [⟨nodes, rd + 1, dd, false⟩] ↔
      (mode = DispatchMode.TailCall ∧ rd ≠ RECURSION_DEPTH_LIMIT ∧ b = false)) ∧
    (¬(mode = DispatchMode.TailCall ∧ rd ≠ RECURSION_DEPTH_LIMIT ∧ b = false) →
      traverse_nodes nodes mode rd dd b = [⟨nodes, 0, dd, true⟩]) := by
  unfold traverse_nodes
  rw [if_pos h]
  by_cases h2 : may_dispatch_tail mode rd b = true
  · have hcond := (may_dispatch_tail_iff mode rd b).mp h2
    rw [if_pos h2]
    exact ⟨⟨fun _ => hcond, fun _ => rfl⟩, fun hn => absurd hcond hn⟩
  · have hcond : ¬(mode = DispatchMode.TailCall ∧ rd ≠ RECURSION_DEPTH_LIMIT ∧ b = false) :=
      fun hc => h2 ((may_dispatch_tail_iff mode rd b).mpr hc)
    rw [if_neg h2]
    refine ⟨⟨fun heq => ?_, fun hc => absurd hc hcond⟩, fun _ => rfl⟩
    · simp [WorkCall.mk.injEq] at heq

theorem single_unit_tail_or_spawn_witness :
    traverse_nodes [1] DispatchMode.TailCall 0 5 false = [⟨[1], 1, 5, false⟩] :=
  (single_unit_tail_or_spawn [1] DispatchMode.TailCall 0 5 false (by decide)).1.mpr
    ⟨rfl, by decide, rfl⟩


/-- C3: when the node count exceeds `WORK_UNIT_MAX`, the dispatcher splits
the list with `chunks(WORK_UNIT_MAX)` into consecutive chunks of at most 16
nodes whose concatenation is the original list (a 20-node list becomes a
16-node chunk followed by a 4-node chunk), and every chunk is spawned
unconditionally as a new task with recursion depth `0` and the level's
per-level data. -/
theorem oversized_list_chunked (nodes : List Nat) (mode : DispatchMode)
    (rd dd : Nat) (b : Bool) (h : WORK_UNIT_MAX < nodes.length) :
    traverse_nodes nodes mode rd dd b =
      (chunks WORK_UNIT_MAX nodes).map (fun c => ⟨c, 0, dd, true⟩) ∧
    (chunks WORK_UNIT_MAX nodes).flatten = nodes ∧
    (∀ c ∈ chunks WORK_UNIT_MAX nodes, c.length ≤ WORK_UNIT_MAX ∧ c ≠ []) ∧
    (nodes.length = 20 →
      chunks WORK_UNIT_MAX nodes = [nodes.take 16, nodes.drop 16]) := by
  refine ⟨?_, ?_, ?_, ?_⟩
  · unfold traverse_nodes
    rw [if_neg (by omega)]
  · exact chunks_flatten WORK_UNIT_MAX (by decide) nodes
  · exact fun c hc => chunks_mem_length_le WORK_UNIT_MAX nodes c hc
  · exact fun h20 => chunks_of_len20 nodes h20

theorem oversized_list_chunked_witness :
    chunks WORK_UNIT_MAX (List.range 20) =
      [(List.range 20).take 16, (List.range 20).drop 16] ∧
    (chunks WORK_UNIT_MAX (List.range 20)).flatten = List.range 20 :=
  ⟨(oversized_list_chunked (List.range 20) DispatchMode.TailCall 0 3 false
      (by decide)).2.2.2 (by decide),
   (oversized_list_chunked (List.range 20) DispatchMode.TailCall 0 3 false
      (by decide)).2.1⟩

/-- C4: over one work unit, the level processor produces for each node, in
list order, exactly one preorder event immediately followed by exactly one
postorder event for that node, and the postorder event carries exactly the
number of children the preorder callback emitted for it. -/
theorem postorder_once_with_exact_count (childrenOf : Nat → List Nat)
    (nodes : List Nat) (rd dd : Nat) :
    (top_down_dom childrenOf nodes rd dd).events =
      nodes.flatMap (fun n =>
        [Event.preorder n, Event.postorder n ((childrenOf n).length : Int)]) := by
  have h := top_down_loop_events childrenOf rd dd nodes ⟨[], [], []⟩
  unfold top_down_dom
  by_cases hb : (top_down_loop childrenOf rd dd nodes ⟨[], [], []⟩).buffer.isEmpty
  · simp only [hb, ite_true]
    rw [h]
    simp
  · simp only [hb, ite_false]
    show (top_down_loop childrenOf rd dd nodes ⟨[], [], []⟩).events = _
    rw [h]
    simp


/-- C5: before each node of the work unit is processed, if the scratch
buffer holds at least `WORK_UNIT_MAX` discovered children, its entire
contents are dispatched as one work unit with mode `NotTailCall` at the
current level's depth plus one and the buffer is cleared (so after the
node it holds only that node's children); otherwise nothing is dispatched
at that point and the node's children are appended to the buffer. -/
theorem midloop_full_buffer_dispatch (childrenOf : Nat → List Nat)
    (rd dd : Nat) (s : LoopState) (n : Nat) :
    (WORK_UNIT_MAX ≤ s.buffer.length →
      top_down_step childrenOf rd dd s n =
        { buffer := childrenOf n,
          dispatches := s.dispatches ++
            [⟨s.buffer, DispatchMode.NotTailCall, rd, dd + 1⟩],
          events := s.events ++
            [Event.preorder n, Event.postorder n ((childrenOf n).length : Int)] }) ∧
    (s.buffer.length < WORK_UNIT_MAX →
      (top_down_step childrenOf rd dd s n).dispatches = s.dispatches ∧
      (top_down_step childrenOf rd dd s n).buffer = s.buffer ++ childrenOf n) := by
  rw [top_down_step_spec]
  constructor
  · intro hfull
    rw [if_pos hfull]
  · intro hlt
    rw [if_neg (by omega)]
    exact ⟨rfl, rfl⟩

theorem midloop_full_buffer_dispatch_witness :
    top_down_step leafOnly 2 3 ⟨List.range 16, [], []⟩ 0 =
      { buffer := leafOnly 0,
        dispatches := [⟨List.range 16, DispatchMode.NotTailCall, 2, 3 + 1⟩],
        events := [Event.preorder 0, Event.postorder 0 ((leafOnly 0).length : Int)] } ∧
    (top_down_step leafOnly 2 3 ⟨[9], [], []⟩ 0).dispatches = [] :=
  ⟨(midloop_full_buffer_dispatch leafOnly 2 3 ⟨List.range 16, [], []⟩ 0).1 (by decide),
   ((midloop_full_buffer_dispatch leafOnly 2 3 ⟨[9], [], []⟩ 0).2 (by decide)).1⟩

/-- C6: after the loop over a work unit, the level processor issues exactly
one further dispatcher call, with the remaining scratch buffer, mode
`TailCall` and the level's depth plus one, when the buffer is non-empty;
when the buffer is empty it issues no further dispatch. -/
theorem final_remainder_tail_dispatch (childrenOf : Nat → List Nat)
    (nodes : List Nat) (rd dd : Nat) :
    ((top_down_loop childrenOf rd dd nodes ⟨[], [], []⟩).buffer = [] →
      (top_down_dom childrenOf nodes rd dd).dispatches =
        (top_down_loop childrenOf rd dd nodes ⟨[], [], []⟩).dispatches) ∧
    ((top_down_loop childrenOf rd dd nodes ⟨[], [], []⟩).buffer ≠ [] →
      (top_down_dom childrenOf nodes rd dd).dispatches =
        (top_down_loop childrenOf rd dd nodes ⟨[], [], []⟩).dispatches ++
          [⟨(top_down_loop childrenOf rd dd nodes ⟨[], [], []⟩).buffer,
            DispatchMode.TailCall, rd, dd + 1⟩]) := by
  unfold top_down_dom
  constructor
  · intro hnil
    rw [if_pos (List.isEmpty_iff.mpr hnil)]
  · intro hne
    rw [if_neg (fun hc => hne (List.isEmpty_iff.mp hc))]

theorem final_remainder_tail_dispatch_witness :
    (top_down_dom leafOnly [0] 1 2).dispatches =
      (top_down_loop leafOnly 1 2 [0] ⟨[], [], []⟩).dispatches ∧
    (top_down_dom oneChild [0] 1 2).dispatches =
      (top_down_loop oneChild 1 2 [0] ⟨[], [], []⟩).dispatches ++
        [⟨(top_down_loop oneChild 1 2 [0] ⟨[], [], []⟩).buffer,
          DispatchMode.TailCall, 1, 2 + 1⟩] :=
  ⟨(final_remainder_tail_dispatch leafOnly [0] 1 2).1 (by decide),
   (final_remainder_tail_dispatch oneChild [0] 1 2).2 (by decide)⟩


/-- C7: over any whole traversal seeded by the driver's root dispatch at
recursion depth `0`, every dispatcher call carries a recursion depth of at
most `RECURSION_DEPTH_LIMIT = 150`, so the dispatcher's depth assertion
holds; and a dispatch that arrives at the ceiling is not a failure: it
degrades to spawning a task at recursion depth `0`. -/
theorem recursion_depth_ceiling_graceful :
    (∀ (childrenOf : Nat → List Nat) (root root_depth : Nat) (c : DispatchCall),
      ReachesDispatch childrenOf (rootDispatch root root_depth) c →
      c.recursion_depth ≤ RECURSION_DEPTH_LIMIT) ∧
    (∀ (nodes : List Nat) (mode : DispatchMode) (dd : Nat) (b : Bool),
      nodes.length ≤ WORK_UNIT_MAX →
      traverse_nodes nodes mode RECURSION_DEPTH_LIMIT dd b =
        [⟨nodes, 0, dd, true⟩]) := by
  constructor
  · exact fun childrenOf root root_depth c h =>
      reaches_recursion_depth_le childrenOf root root_depth c h
  · intro nodes mode dd b h
    unfold traverse_nodes
    rw [if_pos h, if_neg (by simp [may_dispatch_tail])]

theorem recursion_depth_ceiling_graceful_witness :
    (rootDispatch 5 2).recursion_depth ≤ RECURSION_DEPTH_LIMIT ∧
    traverse_nodes [7] DispatchMode.TailCall RECURSION_DEPTH_LIMIT 4 false =
      [⟨[7], 0, 4, true⟩] :=
  ⟨recursion_depth_ceiling_graceful.1 leafOnly 5 2 (rootDispatch 5 2)
      ReachesDispatch.refl,
   recursion_depth_ceiling_graceful.2 [7] DispatchMode.TailCall 4 false (by decide)⟩

/-- C8: every dispatcher call of a traversal seeded by the driver's
one-node root dispatch carries a non-empty node list, so the dispatcher's
non-emptiness assertion holds by construction: the mid-loop dispatch fires
only with at least `WORK_UNIT_MAX` buffered children and the final
dispatch only with a non-empty buffer. -/
theorem dispatch_list_nonempty (childrenOf : Nat → List Nat)
    (root root_depth : Nat) (c : DispatchCall)
    (h : ReachesDispatch childrenOf (rootDispatch root root_depth) c) :
    c.nodes ≠ [] := by
  induction h with
  | refl => simp [rootDispatch]
  | step c b w d hreach hw hd ih =>
    exact (top_down_dom_dispatch_inv childrenOf w.nodes w.recursion_depth
      w.dom_depth d hd).2.2

theorem dispatch_list_nonempty_witness :
    0 < (rootDispatch 3 0).nodes.length :=
  List.length_pos.mpr
    (dispatch_list_nonempty leafOnly 3 0 (rootDispatch 3 0) ReachesDispatch.refl)

/-- C9: with the statistics flag enabled the driver records the start
timestamp, folds the per-thread slots into one aggregate with the merge
operation starting from the default (skipping unused slots), finalizes it
with the start time, and prints it exactly when it is classified a large
traversal; with the flag disabled, no timestamp is taken and nothing is
aggregated or printed. -/
theorem stats_dump_behavior (S : Type) (ops : StatsOps S) (now : Nat)
    (slots : List (Option S)) :
    traverse_dom_stats ops true now slots =
      some (some now,
        if ops.is_large_traversal (ops.finish
            ((slots.filterMap id).foldl (fun acc st => ops.add st acc) ops.default) now)
        then some (ops.finish
            ((slots.filterMap id).foldl (fun acc st => ops.add st acc) ops.default) now)
        else none) ∧
    traverse_dom_stats ops false now slots = some (none, none) :=
  ⟨traverse_dom_stats_true ops now slots, traverse_dom_stats_false ops now slots⟩

/-- C10: the driver's statistics epilogue never panics on
`start_time.unwrap()`: the result is always defined, and its recorded
start time is `some` exactly when the dump-statistics flag is set. -/
theorem start_time_guarded_by_flag (S : Type) (ops : StatsOps S)
    (dump_stats : Bool) (now : Nat) (slots : List (Option S)) :
    ∃ out, traverse_dom_stats ops dump_stats now slots = some out ∧
      out.1 = (if dump_stats then some now else none) := by
  cases dump_stats
  · exact ⟨(none, none), traverse_dom_stats_false ops now slots, rfl⟩
  · exact ⟨_, traverse_dom_stats_true ops now slots, rfl⟩

end Servo
